import Mathlib

set_option autoImplicit false

/-! Shallow embedding of the WASI host shim of this repository: the in-memory
virtual filesystem (src/fs-mem.ts, src/fd.ts), the dispatcher's rename and
readdir loops and the readiness-polling engine (the WASI import layer), the
regular-file handle operations, the asynchronously-fed input handle, and the
process-wide inode counter.  Strings are modelled as lists of characters,
JavaScript `Map`s as association lists in insertion order, object mutation as
functional update of the tree at the resolved path, and the process clock
readings as explicit parameters. -/

namespace QjsWasi

/-- wasi-defs.ts errno constants. -/
def ERRNO_SUCCESS : Nat := 0

def ERRNO_BADF : Nat := 8

def ERRNO_EXIST : Nat := 20

def ERRNO_INVAL : Nat := 28

def ERRNO_ISDIR : Nat := 31

def ERRNO_NOENT : Nat := 44

def ERRNO_NOTDIR : Nat := 54

def ERRNO_NOTEMPTY : Nat := 55

def ERRNO_NOTSUP : Nat := 58

def ERRNO_PERM : Nat := 63

def ERRNO_NOTCAPABLE : Nat := 76

/-- wasi-defs.ts file types. -/
def FILETYPE_CHARACTER_DEVICE : Nat := 2

def FILETYPE_DIRECTORY : Nat := 3

def FILETYPE_REGULAR_FILE : Nat := 4

/-- wasi-defs.ts open flags. -/
def OFLAGS_CREAT : Nat := 1

def OFLAGS_DIRECTORY : Nat := 2

def OFLAGS_EXCL : Nat := 4

def OFLAGS_TRUNC : Nat := 8

def FDFLAGS_APPEND : Nat := 1

def RIGHTS_FD_READ : Nat := 2

def RIGHTS_FD_WRITE : Nat := 64

def WHENCE_SET : Nat := 0

def WHENCE_CUR : Nat := 1

def WHENCE_END : Nat := 2

def EVENTTYPE_CLOCK : Nat := 0

def EVENTTYPE_FD_READ : Nat := 1

def EVENTTYPE_FD_WRITE : Nat := 2

def CLOCKID_REALTIME : Nat := 0

def CLOCKID_MONOTONIC : Nat := 1

def SUBCLOCKFLAGS_SUBSCRIPTION_CLOCK_ABSTIME : Nat := 1

def EVENTRWFLAGS_FD_READWRITE_HANGUP : Nat := 1

/-- A JavaScript string, modelled as its list of characters. -/
abbrev Name := List Char

/-- The virtual filesystem node (fd.ts `Inode`, fs-mem.ts `File`/`Directory`).
A `file` owns a byte buffer and a read-only flag, a `dir` owns a name-to-inode
mapping in insertion order.  The `ino` field is the identifier issued at
construction by the process-wide counter. -/
inductive Inode where
  | file (ino : Nat) (data : List Nat) (readonly : Bool)
  | dir (ino : Nat) (contents : List (Name × Inode))

/-- Lookup in a directory mapping: JavaScript `Map.get`. -/
def mapGet : List (Name × Inode) → Name → Option Inode
  | [], _ => none
  | (k, v) :: rest, key => if k = key then some v else mapGet rest key

/-- Update in a directory mapping: JavaScript `Map.set` replaces an existing
key in place (insertion order preserved) and appends a new key at the end. -/
def mapSet : List (Name × Inode) → Name → Inode → List (Name × Inode)
  | [], key, v => [(key, v)]
  | (k, w) :: rest, key, v =>
    if k = key then (key, v) :: rest else (k, w) :: mapSet rest key v

/-- Removal from a directory mapping: JavaScript `Map.delete`.  A `Map` holds
each key at most once, so removing every occurrence from the association list
coincides with removing the entry. -/
def mapDel : List (Name × Inode) → Name → List (Name × Inode)
  | [], _ => []
  | (k, w) :: rest, key =>
    if k = key then mapDel rest key else (k, w) :: mapDel rest key

/-- The fields of wasi-defs.ts `Filestat` that the filesystem layer reads. -/
structure Filestat where
  ino : Nat
  filetype : Nat
  size : Nat
deriving DecidableEq

/-- fs-mem.ts `File.stat` / `Directory.stat`. -/
def Inode.stat : Inode → Filestat
  | .file i d _ => ⟨i, FILETYPE_REGULAR_FILE, d.length⟩
  | .dir i _ => ⟨i, FILETYPE_DIRECTORY, 0⟩

/-- The `ino` attribute of a node. -/
def Inode.ino : Inode → Nat
  | .file i _ _ => i
  | .dir i _ => i

/-- fs-mem.ts `Path`: normalized component list plus trailing-slash flag. -/
structure Path where
  parts : List Name
  is_dir : Bool
deriving DecidableEq

/-- Split a raw path string at every '/' (JavaScript `String.split("/")`). -/
def splitSlash : Name → Name → List Name
  | [], acc => [acc.reverse]
  | c :: rest, acc =>
    if c = '/' then acc.reverse :: splitSlash rest [] else splitSlash rest (c :: acc)

/-- The component loop of `Path.from`: skip empty and `.` components, make
`..` pop the last accepted component (capability violation when there is
nothing to pop), accept everything else. -/
def parseComponents : List Name → List Name → Except Nat (List Name)
  | [], acc => .ok acc
  | c :: rest, acc =>
    if c = [] ∨ c = ['.'] then parseComponents rest acc
    else if c = ['.', '.'] then
      if acc = [] then .error ERRNO_NOTCAPABLE
      else parseComponents rest acc.dropLast
    else parseComponents rest (acc ++ [c])

/-- fs-mem.ts `Path.from`: reject absolute paths and embedded NULs, record the
trailing-slash flag, normalize the components. -/
def path_from (s : Name) : Except Nat Path :=
  let is_dir := s.getLast? = some '/'
  if s.head? = some '/' then .error ERRNO_NOTCAPABLE
  else if s.contains (Char.ofNat 0) then .error ERRNO_INVAL
  else
    match parseComponents (splitSlash s []) [] with
    | .error e => .error e
    | .ok parts => .ok ⟨parts, is_dir⟩

/-- The component walk inside `Directory.get_entry_for_path`: a non-directory
met before the components run out is "not a directory", a missing mapping
entry is "not found". -/
def resolvePath : Inode → List Name → Except Nat Inode
  | e, [] => .ok e
  | .file _ _ _, _ :: _ => .error ERRNO_NOTDIR
  | .dir _ m, c :: rest =>
    match mapGet m c with
    | none => .error ERRNO_NOENT
    | some child => resolvePath child rest

/-- fs-mem.ts `Directory.get_entry_for_path`: walk the components, then apply
the trailing-slash "must be a directory" check. -/
def get_entry_for_path (self : Inode) (p : Path) : Except Nat Inode :=
  match resolvePath self p.parts with
  | .error e => .error e
  | .ok entry =>
    if p.is_dir = true ∧ entry.stat.filetype ≠ FILETYPE_DIRECTORY then .error ERRNO_NOTDIR
    else .ok entry

/-- fs-mem.ts `Directory.get_parent_dir_and_entry_for_path`: pop the final
component, resolve the remaining components to the parent directory, and look
the final component up in the parent's mapping.  Returns the parent's path
(the popped component list), the final name, the parent directory's mapping,
and the entry when present. -/
def get_parent_dir_and_entry_for_path (self : Inode) (p : Path) (allow_undefined : Bool) :
    Except Nat (List Name × Name × List (Name × Inode) × Option Inode) :=
  match p.parts.getLast? with
  | none => .error ERRNO_INVAL
  | some filename =>
    match get_entry_for_path self ⟨p.parts.dropLast, p.is_dir⟩ with
    | .error e => .error e
    | .ok (.file _ _ _) => .error ERRNO_NOTDIR
    | .ok (.dir _ m) =>
      match mapGet m filename with
      | none =>
        if allow_undefined then .ok (p.parts.dropLast, filename, m, none)
        else .error ERRNO_NOENT
      | some entry =>
        if p.is_dir = true ∧ entry.stat.filetype ≠ FILETYPE_DIRECTORY then .error ERRNO_NOTDIR
        else .ok (p.parts.dropLast, filename, m, some entry)

/-- Functional update of the directory resolved at `parts`: the pure image of
mutating `parent_entry.contents` through the reference returned by path
resolution.  When the path does not resolve to a directory the tree is
returned unchanged (the callers only use it after a successful resolution). -/
def modifyAt (node : Inode) (parts : List Name) (f : List (Name × Inode) → List (Name × Inode)) :
    Inode :=
  match parts with
  | [] =>
    match node with
    | .dir i m => .dir i (f m)
    | n => n
  | c :: rest =>
    match node with
    | .dir i m =>
      match mapGet m c with
      | some child => .dir i (mapSet m c (modifyAt child rest f))
      | none => .dir i m
    | n => n

/-- Replacement of the entry resolved at `parts`: the pure image of mutating a
`File` object found at that path (used by the truncating open). -/
def set_entry_at (node : Inode) (parts : List Name) (v : Inode) : Inode :=
  match parts.getLast? with
  | none => node
  | some fn => modifyAt node parts.dropLast (fun m => mapSet m fn v)

/-- fs-mem.ts `OpenDirectory.path_unlink`: remove and return the named entry
regardless of type.  Returns the errno, the removed inode, and the tree after
the call. -/
def path_unlink (self : Inode) (path_str : Name) : Nat × Option Inode × Inode :=
  match path_from path_str with
  | .error e => (e, none, self)
  | .ok p =>
    match get_parent_dir_and_entry_for_path self p true with
    | .error e => (e, none, self)
    | .ok (_, _, _, none) => (ERRNO_NOENT, none, self)
    | .ok (pp, filename, _, some entry) =>
      (ERRNO_SUCCESS, some entry, modifyAt self pp (fun m => mapDel m filename))

/-- The final step of `path_link`: reject linking a directory when
`allow_dir` is not set, otherwise update the parent's mapping in place. -/
def linkSet (self : Inode) (pp : List Name) (filename : Name) (inode : Inode)
    (allow_dir : Bool) : Nat × Inode :=
  if allow_dir = false ∧ inode.stat.filetype = FILETYPE_DIRECTORY then (ERRNO_PERM, self)
  else (ERRNO_SUCCESS, modifyAt self pp (fun m => mapSet m filename inode))

/-- fs-mem.ts `OpenDirectory.path_link`: link `inode` at the path.  A
trailing-slash path is "not found"; an existing destination entry is compared
by type (directory-onto-directory needs `allow_dir` and an empty destination,
mismatches are "not a directory"/"is a directory", non-regular sources are
"already exists").  Returns the errno and the tree after the call. -/
def path_link (self : Inode) (path_str : Name) (inode : Inode) (allow_dir : Bool) :
    Nat × Inode :=
  match path_from path_str with
  | .error e => (e, self)
  | .ok p =>
    if p.is_dir then (ERRNO_NOENT, self)
    else
      match get_parent_dir_and_entry_for_path self p true with
      | .error e => (e, self)
      | .ok (pp, filename, _, entryOpt) =>
        match entryOpt with
        | some entry =>
          if inode.stat.filetype = FILETYPE_DIRECTORY ∧
              entry.stat.filetype = FILETYPE_DIRECTORY then
            match allow_dir, entry with
            | true, .dir _ em =>
              if em.length ≠ 0 then (ERRNO_NOTEMPTY, self)
              else linkSet self pp filename inode allow_dir
            | _, _ => (ERRNO_EXIST, self)
          else if inode.stat.filetype = FILETYPE_DIRECTORY then (ERRNO_NOTDIR, self)
          else if entry.stat.filetype = FILETYPE_DIRECTORY then (ERRNO_ISDIR, self)
          else if inode.stat.filetype ≠ FILETYPE_REGULAR_FILE ∨
              entry.stat.filetype ≠ FILETYPE_REGULAR_FILE then (ERRNO_EXIST, self)
          else linkSet self pp filename inode allow_dir
        | none => linkSet self pp filename inode allow_dir

/-- Result of the dispatcher's `path_rename`: either an errno with the tree
after the call, or the fatal throw taken when re-linking the unlinked source
inode back fails. -/
inductive RenameResult where
  | ok (ret : Nat) (root : Inode)
  | fatal

/-- The dispatcher's `path_rename` import (unlink-then-link with rollback),
specialized to source and destination descriptors denoting the same open
directory tree: unlink the source entry, try to link it at the destination,
and on failure re-link it at the source path, treating a failing re-link as
the fatal internal-consistency throw. -/
def path_rename (root : Inode) (old_path new_path : Name) : RenameResult :=
  match path_unlink root old_path with
  | (unlinkRet, none, t) => .ok unlinkRet t
  | (_, some inode_obj, t1) =>
    match path_link t1 new_path inode_obj true with
    | (linkRet, t2) =>
      if linkRet ≠ ERRNO_SUCCESS then
        match path_link t2 old_path inode_obj true with
        | (relinkRet, t3) =>
          if relinkRet ≠ ERRNO_SUCCESS then .fatal
          else .ok linkRet t3
      else .ok linkRet t2

/-- A concrete tree: an empty directory `d` next to a non-empty directory
`e`, under the root. -/
def renameCexRoot : Inode :=
  .dir 0 [(['d'], .dir 1 []), (['e'], .dir 2 [(['x'], .file 3 [] false)])]

/-- fs-mem.ts `Directory.create_entry_for_path`: fail "already exists" when
the entry is present, otherwise insert a freshly constructed empty `File` or
`Directory` whose `ino` is the value `ctr` issued by the process-wide
counter. -/
def create_entry_for_path (self : Inode) (path_str : Name) (is_dir : Bool) (ctr : Nat) :
    Nat × Option Inode × Inode :=
  match path_from path_str with
  | .error e => (e, none, self)
  | .ok p =>
    match get_parent_dir_and_entry_for_path self p true with
    | .error e => (e, none, self)
    | .ok (_, _, _, some _) => (ERRNO_EXIST, none, self)
    | .ok (pp, filename, _, none) =>
      let newChild := if is_dir then Inode.dir ctr [] else Inode.file ctr [] false
      (ERRNO_SUCCESS, some newChild, modifyAt self pp (fun m => mapSet m filename newChild))

/-- An open handle as returned by `path_open`: an `OpenFile` over the file's
buffer with its cursor, or an `OpenDirectory` over the directory node. -/
inductive FdObj where
  | openFile (data : List Nat) (readonly : Bool) (file_pos : Nat)
  | openDirectory (d : Inode)

/-- The tail of `OpenDirectory.path_open` once the entry is known: the
"directory explicitly requested" check followed by the resolved node's own
`path_open` (`File.path_open` rejects write rights and truncation on
read-only files, truncates the shared buffer on `OFLAGS_TRUNC`, and seeks to
the end on `FDFLAGS_APPEND`; `Directory.path_open` returns an enumerating
handle). -/
def open_entry (self : Inode) (p : Path) (entry : Inode) (oflags fs_rights_base fd_flags : Nat) :
    Nat × Option FdObj × Inode :=
  if oflags &&& OFLAGS_DIRECTORY = OFLAGS_DIRECTORY ∧
      entry.stat.filetype ≠ FILETYPE_DIRECTORY then
    (ERRNO_NOTDIR, none, self)
  else
    match entry with
    | .dir i m => (ERRNO_SUCCESS, some (.openDirectory (.dir i m)), self)
    | .file i data ro =>
      if ro = true ∧ fs_rights_base &&& RIGHTS_FD_WRITE = RIGHTS_FD_WRITE then
        (ERRNO_PERM, none, self)
      else if oflags &&& OFLAGS_TRUNC = OFLAGS_TRUNC ∧ ro = true then
        (ERRNO_PERM, none, self)
      else
        let data' := if oflags &&& OFLAGS_TRUNC = OFLAGS_TRUNC then [] else data
        let self' :=
          if oflags &&& OFLAGS_TRUNC = OFLAGS_TRUNC then
            set_entry_at self p.parts (.file i [] ro)
          else self
        let pos := if fd_flags &&& FDFLAGS_APPEND ≠ 0 then data'.length else 0
        (ERRNO_SUCCESS, some (.openFile data' ro pos), self')

/-- fs-mem.ts `OpenDirectory.path_open`: resolve; on "not found" with the
create flag, create the missing entry (a directory when the directory flag is
set) with `ctr` as the fresh ino; without the create flag fail "not found";
on success with the exclusive flag fail "already exists"; then open the
entry.  Returns the errno, the open handle, and the tree after the call. -/
def path_open (self : Inode) (path_str : Name) (oflags fs_rights_base fd_flags ctr : Nat) :
    Nat × Option FdObj × Inode :=
  match path_from path_str with
  | .error e => (e, none, self)
  | .ok p =>
    match get_entry_for_path self p with
    | .error lookupRet =>
      if lookupRet ≠ ERRNO_NOENT then (lookupRet, none, self)
      else if oflags &&& OFLAGS_CREAT = OFLAGS_CREAT then
        match create_entry_for_path self path_str
            (decide (oflags &&& OFLAGS_DIRECTORY = OFLAGS_DIRECTORY)) ctr with
        | (createRet, none, _) => (createRet, none, self)
        | (_, some entry, self') => open_entry self' p entry oflags fs_rights_base fd_flags
      else (ERRNO_NOENT, none, self)
    | .ok entry =>
      if oflags &&& OFLAGS_EXCL = OFLAGS_EXCL then (ERRNO_EXIST, none, self)
      else open_entry self p entry oflags fs_rights_base fd_flags

/-- fs-mem.ts `OpenDirectory.path_remove_directory`: the target must exist
and be a directory with an empty mapping; then it is removed from its
parent's mapping. -/
def path_remove_directory (self : Inode) (path_str : Name) : Nat × Inode :=
  match path_from path_str with
  | .error e => (e, self)
  | .ok p =>
    match get_parent_dir_and_entry_for_path self p false with
    | .error e => (e, self)
    | .ok (_, _, _, none) => (ERRNO_SUCCESS, self)
    | .ok (pp, filename, pm, some entry) =>
      match entry with
      | .file _ _ _ => (ERRNO_NOTDIR, self)
      | .dir _ dm =>
        if dm.length ≠ 0 then (ERRNO_NOTEMPTY, self)
        else if (mapGet pm filename).isNone then (ERRNO_NOENT, self)
        else (ERRNO_SUCCESS, modifyAt self pp (fun m => mapDel m filename))

/-- fs-mem.ts `OpenFile`: a handle over a regular file's buffer and read-only
flag, with the handle's byte cursor. -/
structure OpenFile where
  data : List Nat
  readonly : Bool
  file_pos : Nat
deriving DecidableEq

/-- fs-mem.ts `OpenFile.fd_write`: a read-only file is "bad descriptor"; the
buffer is grown with zero fill when the write reaches past its end, the bytes
are stored at the cursor, and the cursor advances by the byte count. -/
def OpenFile.fd_write (st : OpenFile) (d : List Nat) : (Nat × Nat) × OpenFile :=
  if st.readonly then ((ERRNO_BADF, 0), st)
  else
    let buf :=
      if st.file_pos + d.length > st.data.length then
        st.data ++ List.replicate (st.file_pos + d.length - st.data.length) 0
      else st.data
    let newData := buf.take st.file_pos ++ d ++ buf.drop (st.file_pos + d.length)
    ((ERRNO_SUCCESS, d.length), ⟨newData, st.readonly, st.file_pos + d.length⟩)

/-- fs-mem.ts `OpenFile.fd_pwrite`: like `fd_write` at an explicit offset,
leaving the cursor unchanged. -/
def OpenFile.fd_pwrite (st : OpenFile) (d : List Nat) (offset : Nat) : (Nat × Nat) × OpenFile :=
  if st.readonly then ((ERRNO_BADF, 0), st)
  else
    let buf :=
      if offset + d.length > st.data.length then
        st.data ++ List.replicate (offset + d.length - st.data.length) 0
      else st.data
    let newData := buf.take offset ++ d ++ buf.drop (offset + d.length)
    ((ERRNO_SUCCESS, d.length), ⟨newData, st.readonly, st.file_pos⟩)

/-- fs-mem.ts `OpenFile.fd_read`: slice up to `size` bytes at the cursor and
advance the cursor by the slice length. -/
def OpenFile.fd_read (st : OpenFile) (size : Nat) : (Nat × List Nat) × OpenFile :=
  let slice := (st.data.drop st.file_pos).take size
  ((ERRNO_SUCCESS, slice), { st with file_pos := st.file_pos + slice.length })

/-- The shared tail of `OpenFile.fd_seek`: a negative computed offset is
invalid, otherwise the cursor moves there. -/
def OpenFile.seekTo (st : OpenFile) (calculated : Int) : (Nat × Int) × OpenFile :=
  if calculated < 0 then ((ERRNO_INVAL, 0), st)
  else ((ERRNO_SUCCESS, calculated), { st with file_pos := calculated.toNat })

/-- fs-mem.ts `OpenFile.fd_seek`. -/
def OpenFile.fd_seek (st : OpenFile) (offset : Int) (whence : Nat) : (Nat × Int) × OpenFile :=
  if whence = WHENCE_SET then st.seekTo offset
  else if whence = WHENCE_CUR then st.seekTo (st.file_pos + offset)
  else if whence = WHENCE_END then st.seekTo (st.data.length + offset)
  else ((ERRNO_INVAL, 0), st)

/-- wasi-defs.ts `Dirent`: the fields the readdir loop reads.  The name is
carried as characters; its byte length is the name length. -/
structure Dirent where
  d_next : Nat
  d_ino : Nat
  d_name : Name
  d_type : Nat
deriving DecidableEq

/-- wasi-defs.ts `Dirent.head_length`. -/
def Dirent.head_length (_ : Dirent) : Nat := 24

/-- wasi-defs.ts `Dirent.name_length`. -/
def Dirent.name_length (d : Dirent) : Nat := d.d_name.length

/-- fs-mem.ts `OpenDirectory.fd_readdir_single` for a directory with inode id
`dirIno`, parent inode id `parentIno` (`Directory.parent_ino()`), and the
given contents mapping: cookie 0 is `.`, cookie 1 is `..`, cookie `k + 2` is
the mapping's `k`-th entry with next-cookie `k + 3`, and past the end there
is no entry.  The returned errno is always success. -/
def fd_readdir_single (dirIno parentIno : Nat) (contents : List (Name × Inode))
    (cookie : Nat) : Nat × Option Dirent :=
  if cookie = 0 then (ERRNO_SUCCESS, some ⟨1, dirIno, ['.'], FILETYPE_DIRECTORY⟩)
  else if cookie = 1 then (ERRNO_SUCCESS, some ⟨2, parentIno, ['.', '.'], FILETYPE_DIRECTORY⟩)
  else if contents.length + 2 ≤ cookie then (ERRNO_SUCCESS, none)
  else
    match contents[cookie - 2]? with
    | some (name, entry) => (ERRNO_SUCCESS, some ⟨cookie + 1, entry.ino, name, entry.stat.filetype⟩)
    | none => (ERRNO_SUCCESS, none)

/-- The dispatcher's `fd_readdir` loop body: starting from `cookie` with
`bufused` bytes already used of a `buf_len`-byte caller buffer, collect the
entries written whole (24-byte header plus name bytes); an entry whose header
or name does not fit marks the buffer as full and is left for the next call
(the cookie is not advanced past it).  Returns the entries written whole, the
final cookie variable, and the final `bufused`.  The `fuel` argument bounds
the iterations (the cookie strictly increases, so `contents.length + 3` always
suffices). -/
def fd_readdir_loop (dirIno parentIno : Nat) (contents : List (Name × Inode)) (buf_len : Nat) :
    Nat → Nat → Nat → List Dirent × Nat × Nat
  | 0, cookie, bufused => ([], cookie, bufused)
  | fuel + 1, cookie, bufused =>
    match (fd_readdir_single dirIno parentIno contents cookie).2 with
    | none => ([], cookie, bufused)
    | some dirent =>
      if buf_len - bufused < dirent.head_length then ([], cookie, buf_len)
      else if buf_len - (bufused + dirent.head_length) < dirent.name_length then
        ([], cookie, buf_len)
      else
        let r := fd_readdir_loop dirIno parentIno contents buf_len fuel dirent.d_next
          (bufused + dirent.head_length + dirent.name_length)
        (dirent :: r.1, r.2.1, r.2.2)

/-- A guest repeatedly calling `fd_readdir`, resuming each call from the
final cookie of the previous one, until a call returns no whole entry.
`fuel` bounds the number of calls. -/
def fd_readdir_drain (dirIno parentIno : Nat) (contents : List (Name × Inode)) (buf_len : Nat) :
    Nat → Nat → List Dirent
  | 0, _ => []
  | fuel + 1, cookie =>
    let r := fd_readdir_loop dirIno parentIno contents buf_len (contents.length + 3) cookie 0
    match r.1 with
    | [] => []
    | l => l ++ fd_readdir_drain dirIno parentIno contents buf_len fuel r.2.1

/-- The entries enumeration of a directory is expected to produce: each
mapping entry in order, the entry at cookie `cookie + 1` carrying next-cookie
`cookie + 2`. -/
def childDirents : Nat → List (Name × Inode) → List Dirent
  | _, [] => []
  | cookie, (name, entry) :: rest =>
    ⟨cookie + 1, entry.ino, name, entry.stat.filetype⟩ :: childDirents (cookie + 1) rest

/-- The full expected enumeration: `.` at cookie 0, `..` at cookie 1, then
the mapping entries offset by 2 in mapping order. -/
def direntsOf (dirIno parentIno : Nat) (contents : List (Name × Inode)) : List Dirent :=
  ⟨1, dirIno, ['.'], FILETYPE_DIRECTORY⟩ ::
    ⟨2, parentIno, ['.', '.'], FILETYPE_DIRECTORY⟩ :: childDirents 2 contents

/-- fd.ts `PollResult`. -/
structure PollResult where
  ready : Bool
  nbytes : Nat
  flags : Nat

/-- wasi-defs.ts `Subscription`: the decoded fields. -/
structure Subscription where
  userdata : Nat
  eventtype : Nat
  clockid : Nat
  timeout : Nat
  flags : Nat
  fd : Nat
deriving DecidableEq

/-- wasi-defs.ts `Event`. -/
structure Event where
  userdata : Nat
  error : Nat
  type : Nat
  nbytes : Nat
  flags : Nat
deriving DecidableEq

/-- The subscription scan of the dispatcher's `poll_oneoff`: clock
subscriptions with a supported clock id contribute their absolute deadline
(taken directly under the abstime flag, otherwise added to the clock's
current reading) to the tracked earliest deadline; unsupported clock ids
yield an immediate invalid event; fd subscriptions probe the descriptor
(unknown descriptors yield a bad-descriptor event, ready probes a success
event with the probe's counts); other event types yield a not-supported
event.  `monoNow`/`realNow` are the monotonic and realtime clock readings and
`fds` is the descriptor table's readiness probe. -/
def pollScan (monoNow realNow : Nat) (fds : Nat → Option (Nat → PollResult)) :
    List Subscription → List Event → Option Nat → Nat → List Event × Option Nat × Nat
  | [], events, clockTimeout, clockUserdata => (events, clockTimeout, clockUserdata)
  | s :: rest, events, clockTimeout, clockUserdata =>
    if s.eventtype = EVENTTYPE_CLOCK then
      if s.clockid = CLOCKID_MONOTONIC ∨ s.clockid = CLOCKID_REALTIME then
        let now := if s.clockid = CLOCKID_MONOTONIC then monoNow else realNow
        let endTime :=
          if s.flags &&& SUBCLOCKFLAGS_SUBSCRIPTION_CLOCK_ABSTIME ≠ 0 then s.timeout
          else now + s.timeout
        match clockTimeout with
        | none => pollScan monoNow realNow fds rest events (some endTime) s.userdata
        | some t =>
          if endTime < t then pollScan monoNow realNow fds rest events (some endTime) s.userdata
          else pollScan monoNow realNow fds rest events (some t) clockUserdata
      else
        pollScan monoNow realNow fds rest
          (events ++ [⟨s.userdata, ERRNO_INVAL, s.eventtype, 0, 0⟩]) clockTimeout clockUserdata
    else if s.eventtype = EVENTTYPE_FD_READ ∨ s.eventtype = EVENTTYPE_FD_WRITE then
      match fds s.fd with
      | none =>
        pollScan monoNow realNow fds rest
          (events ++ [⟨s.userdata, ERRNO_BADF, s.eventtype, 0, 0⟩]) clockTimeout clockUserdata
      | some probe =>
        let r := probe s.eventtype
        if r.ready then
          pollScan monoNow realNow fds rest
            (events ++ [⟨s.userdata, ERRNO_SUCCESS, s.eventtype, r.nbytes, r.flags⟩])
            clockTimeout clockUserdata
        else pollScan monoNow realNow fds rest events clockTimeout clockUserdata
    else
      pollScan monoNow realNow fds rest
        (events ++ [⟨s.userdata, ERRNO_NOTSUP, s.eventtype, 0, 0⟩]) clockTimeout clockUserdata

/-- The dispatcher's `poll_oneoff` import: an empty batch is invalid;
otherwise scan the subscriptions, and when no event fired but a clock
deadline was recorded, re-check the earliest deadline against a fresh reading
of the first clock subscription's clock and emit a single clock-expiry event
when it has passed.  Returns the call's errno and the written events. -/
def poll_oneoff (monoNow realNow : Nat) (fds : Nat → Option (Nat → PollResult))
    (subs : List Subscription) : Nat × List Event :=
  if subs.length = 0 then (ERRNO_INVAL, [])
  else
    match pollScan monoNow realNow fds subs [] none 0 with
    | (events, clockTimeout, clockUserdata) =>
      let events' :=
        match events, clockTimeout with
        | [], some t =>
          let now2 :=
            match subs.find? (fun s => s.eventtype == EVENTTYPE_CLOCK) with
            | some s => if s.clockid = CLOCKID_REALTIME then realNow else monoNow
            | none => monoNow
          if t ≤ now2 then [⟨clockUserdata, ERRNO_SUCCESS, EVENTTYPE_CLOCK, 0, 0⟩] else []
        | es, _ => es
      (ERRNO_SUCCESS, events')

/-- fs-mem.ts `PollableStdin`: the pending-chunk queue, its byte count, the
closed flag, and whether a wake callback is registered (`onWake`). -/
structure PollableStdin where
  buffer : List (List Nat)
  bufferSize : Nat
  closed : Bool
  wakeRegistered : Bool
deriving DecidableEq

/-- fs-mem.ts `PollableStdin.push`: a push on a closed stream does nothing;
otherwise the chunk is appended, the byte count grows by its length, and the
wake callback (when registered) is invoked.  The second component counts the
wake callback invocations the call performs. -/
def PollableStdin.push (st : PollableStdin) (data : List Nat) : PollableStdin × Nat :=
  if st.closed then (st, 0)
  else
    ({ st with buffer := st.buffer ++ [data], bufferSize := st.bufferSize + data.length },
      if st.wakeRegistered then 1 else 0)

/-- fs-mem.ts `PollableStdin.close`: set the closed flag and invoke the wake
callback when registered. -/
def PollableStdin.close (st : PollableStdin) : PollableStdin × Nat :=
  ({ st with closed := true }, if st.wakeRegistered then 1 else 0)

/-- The while loop of fs-mem.ts `PollableStdin.fd_read`: take whole chunks
from the front of the queue while they fit in the remaining request, and
split the front chunk (leaving its unconsumed remainder at the head) when
the remaining request is smaller.  Returns the collected bytes and the
remaining queue. -/
def stdinReadLoop : List (List Nat) → Nat → List Nat × List (List Nat)
  | [], _ => ([], [])
  | chunk :: rest, remaining =>
    if remaining = 0 then ([], chunk :: rest)
    else if chunk.length ≤ remaining then
      match stdinReadLoop rest (remaining - chunk.length) with
      | (col, q') => (chunk ++ col, q')
    else (chunk.take remaining, chunk.drop remaining :: rest)

/-- fs-mem.ts `PollableStdin.fd_read`: an empty byte count returns success
with no data; otherwise bytes are drained from the queued chunks in push
order and the byte count drops by the bytes consumed. -/
def PollableStdin.fd_read (st : PollableStdin) (size : Nat) : (Nat × List Nat) × PollableStdin :=
  if st.bufferSize = 0 then ((ERRNO_SUCCESS, []), st)
  else
    match stdinReadLoop st.buffer size with
    | (col, q') =>
      ((ERRNO_SUCCESS, col),
        { st with buffer := q', bufferSize := st.bufferSize - col.length })

/-- fs-mem.ts `PollableStdin.fd_poll` for the read event type. -/
def PollableStdin.fd_poll (st : PollableStdin) (eventtype : Nat) : PollResult :=
  if eventtype = EVENTTYPE_FD_READ then
    { ready := decide (0 < st.bufferSize) || st.closed
      nbytes := st.bufferSize
      flags := if st.closed ∧ ¬0 < st.bufferSize then EVENTRWFLAGS_FD_READWRITE_HANGUP else 0 }
  else ⟨false, 0, 0⟩

/-- fd.ts `Inode.next_ino` starts at 1. -/
def next_ino_init : Nat := 1

/-- fd.ts `Inode.issue_ino`: post-increment of the process-wide counter,
returning the issued value and the new counter. -/
def issue_ino (next_ino : Nat) : Nat × Nat := (next_ino, next_ino + 1)

/-- fd.ts `Inode.root_ino`: the reserved value for the root's synthetic
parent. -/
def root_ino : Nat := 0

/-- The sequence of ino values issued by `n` successive constructions,
starting from counter value `c`. -/
def issueRun : Nat → Nat → List Nat
  | _, 0 => []
  | c, n + 1 => (issue_ino c).1 :: issueRun (issue_ino c).2 n

/-! Helper lemmas. -/

theorem write_read_key (buf : List Nat) (p : Nat) (d : List Nat)
    (hlen : p + d.length ≤ buf.length) :
    ((buf.take p ++ d ++ buf.drop (p + d.length)).drop p).take d.length = d := by
  have h1 : (buf.take p).length = p := by
    rw [List.length_take]; omega
  have h3 : (buf.take p).drop p = [] := List.drop_eq_nil_of_le (by rw [h1])
  rw [List.append_assoc, List.drop_append_eq_append_drop, h3, h1, Nat.sub_self,
    List.drop_zero, List.nil_append, List.take_left]

theorem stdinReadLoop_flatten (q : List (List Nat)) (r : Nat) :
    (stdinReadLoop q r).1 = q.flatten.take r ∧
      (stdinReadLoop q r).2.flatten = q.flatten.drop r := by
  induction q generalizing r with
  | nil => simp [stdinReadLoop]
  | cons chunk rest ih =>
    by_cases h0 : r = 0
    · subst h0; simp [stdinReadLoop]
    · by_cases hle : chunk.length ≤ r
      · have := ih (r - chunk.length)
        simp only [stdinReadLoop, if_neg h0, if_pos hle, List.flatten_cons]
        constructor
        · rw [List.take_append_eq_append_take, List.take_of_length_le hle, this.1]
        · rw [List.drop_append_eq_append_drop, List.drop_eq_nil_of_le hle,
            List.nil_append, this.2]
      · have hlt : r ≤ chunk.length := le_of_not_le hle
        simp only [stdinReadLoop, if_neg h0, if_neg hle, List.flatten_cons]
        constructor
        · rw [List.take_append_of_le_length hlt]
        · rw [List.drop_append_of_le_length hlt]

theorem issueRun_succ (c n : Nat) : issueRun c (n + 1) = c :: issueRun (c + 1) n := rfl

theorem issueRun_lowerBound : ∀ (n c : Nat),
    List.Pairwise (· < ·) (issueRun c n) ∧ ∀ x ∈ issueRun c n, c ≤ x := by
  intro n
  induction n with
  | zero => intro c; simp [issueRun]
  | succ n ih =>
    intro c
    have hc := ih (c + 1)
    rw [issueRun_succ]
    simp only [List.pairwise_cons, List.mem_cons]
    refine ⟨⟨fun x hx => ?_, hc.1⟩, fun x hx => ?_⟩
    · exact Nat.lt_of_lt_of_le (Nat.lt_succ_self c) (hc.2 x hx)
    · rcases hx with h | h
      · omega
      · have := hc.2 x h; omega

theorem mapGet_mapSet_self (m : List (Name × Inode)) (k : Name) (v : Inode) :
    mapGet (mapSet m k v) k = some v := by
  induction m with
  | nil => simp [mapSet, mapGet]
  | cons hd tl ih =>
    rcases hd with ⟨k', v'⟩
    by_cases h : k' = k
    · simp [mapSet, mapGet, h]
    · simp only [mapSet, if_neg h]
      rw [mapGet, if_neg h, ih]

theorem mapGet_mapDel_self (m : List (Name × Inode)) (k : Name) :
    mapGet (mapDel m k) k = none := by
  induction m with
  | nil => simp [mapDel, mapGet]
  | cons hd tl ih =>
    rcases hd with ⟨k', v'⟩
    by_cases h : k' = k
    · simp only [mapDel, if_pos h]; exact ih
    · simp only [mapDel, if_neg h]
      rw [mapGet, if_neg h, ih]

theorem resolvePath_append (xs : List Name) (e : Inode) (ys : List Name) :
    resolvePath e (xs ++ ys) =
      match resolvePath e xs with
      | .error er => .error er
      | .ok mid => resolvePath mid ys := by
  induction xs generalizing e with
  | nil => simp [resolvePath]
  | cons c rest ih =>
    cases e with
    | file i d ro => simp [resolvePath]
    | dir i m =>
      rw [List.cons_append, resolvePath, resolvePath]
      cases mapGet m c with
      | none => rfl
      | some child => exact ih child

theorem resolvePath_modifyAt (pp : List Name) (root : Inode) (i : Nat)
    (m : List (Name × Inode)) (f : List (Name × Inode) → List (Name × Inode))
    (h : resolvePath root pp = .ok (.dir i m)) :
    resolvePath (modifyAt root pp f) pp = .ok (.dir i (f m)) := by
  induction pp generalizing root with
  | nil =>
    rw [resolvePath] at h
    cases h
    rw [modifyAt, resolvePath]
  | cons c rest ih =>
    cases root with
    | file i0 d ro => rw [resolvePath] at h; exact absurd h (by simp)
    | dir i0 m0 =>
      rw [resolvePath] at h
      cases hmg : mapGet m0 c with
      | none => rw [hmg] at h; exact absurd h (by simp)
      | some child =>
        rw [hmg] at h
        rw [modifyAt, hmg, resolvePath, mapGet_mapSet_self]
        exact ih child h

theorem resolve_after_insert (root : Inode) (pp : List Name) (fn : Name) (i0 : Nat)
    (pm : List (Name × Inode)) (v : Inode)
    (hres : resolvePath root pp = .ok (.dir i0 pm)) :
    resolvePath (modifyAt root pp (fun m => mapSet m fn v)) (pp ++ [fn]) = .ok v := by
  rw [resolvePath_append, resolvePath_modifyAt pp root i0 pm _ hres]
  simp [resolvePath, mapGet_mapSet_self]

theorem get_entry_inv (self : Inode) (p : Path) (e : Inode)
    (h : get_entry_for_path self p = .ok e) : resolvePath self p.parts = .ok e := by
  cases hres : resolvePath self p.parts with
  | error er =>
    have he : get_entry_for_path self p = .error er := by rw [get_entry_for_path, hres]
    rw [he] at h; exact absurd h (by simp)
  | ok entry =>
    have he : get_entry_for_path self p =
        if p.is_dir = true ∧ entry.stat.filetype ≠ FILETYPE_DIRECTORY then .error ERRNO_NOTDIR
        else .ok entry := by rw [get_entry_for_path, hres]
    rw [he] at h
    by_cases hc : p.is_dir = true ∧ entry.stat.filetype ≠ FILETYPE_DIRECTORY
    · rw [if_pos hc] at h; exact absurd h (by simp)
    · rw [if_neg hc] at h
      cases h; rfl

theorem get_parent_ok_inv (self : Inode) (p : Path) (au : Bool) (pp : List Name) (fn : Name)
    (pm : List (Name × Inode)) (eo : Option Inode)
    (h : get_parent_dir_and_entry_for_path self p au = .ok (pp, fn, pm, eo)) :
    pp = p.parts.dropLast ∧ p.parts = pp ++ [fn] ∧
      (∃ i, resolvePath self pp = .ok (.dir i pm)) ∧ mapGet pm fn = eo := by
  rw [get_parent_dir_and_entry_for_path] at h
  split at h
  · exact absurd h (by simp)
  · rename_i filename hlast
    split at h
    · exact absurd h (by simp)
    · exact absurd h (by simp)
    · rename_i i m hget
      have hres : resolvePath self p.parts.dropLast = .ok (.dir i m) :=
        get_entry_inv _ _ _ hget
      have hcat : p.parts.dropLast ++ [filename] = p.parts :=
        List.dropLast_append_getLast? filename hlast
      split at h
      · rename_i hmg
        split at h
        · simp only [Except.ok.injEq, Prod.mk.injEq] at h
          obtain ⟨h1, h2, h3, h4⟩ := h
          subst h1; subst h2; subst h3; subst h4
          exact ⟨rfl, hcat.symm, ⟨i, hres⟩, hmg⟩
        · exact absurd h (by simp)
      · rename_i entry hmg
        split at h
        · exact absurd h (by simp)
        · simp only [Except.ok.injEq, Prod.mk.injEq] at h
          obtain ⟨h1, h2, h3, h4⟩ := h
          subst h1; subst h2; subst h3; subst h4
          exact ⟨rfl, hcat.symm, ⟨i, hres⟩, hmg⟩

theorem path_link_fail_eq (t : Inode) (s : Name) (i : Inode) (a : Bool) (r : Nat) (t' : Inode)
    (he : path_link t s i a = (r, t')) (hr : r ≠ ERRNO_SUCCESS) : t' = t := by
  rw [path_link] at he
  repeat' split at he
  all_goals try rw [linkSet] at he
  all_goals repeat' split at he
  all_goals first
    | (cases he; rfl)
    | (cases he; exact absurd rfl hr)

theorem path_open_creates (root : Inode) (s : Name) (p : Path) (oflags rights fdflags ctr : Nat)
    (pp : List Name) (fn : Name) (pm : List (Name × Inode))
    (hp : path_from s = .ok p)
    (hgp : get_parent_dir_and_entry_for_path root p true = .ok (pp, fn, pm, none))
    (hcreat : oflags &&& OFLAGS_CREAT = OFLAGS_CREAT) :
    (path_open root s oflags rights fdflags ctr).1 = ERRNO_SUCCESS ∧
      ((path_open root s oflags rights fdflags ctr).2.1).isSome = true ∧
      resolvePath (path_open root s oflags rights fdflags ctr).2.2 p.parts =
        .ok (if oflags &&& OFLAGS_DIRECTORY = OFLAGS_DIRECTORY then Inode.dir ctr []
          else Inode.file ctr [] false) := by
  obtain ⟨hpp, hparts, ⟨i0, hres⟩, hmg⟩ := get_parent_ok_inv _ _ _ _ _ _ _ hgp
  have hlast : p.parts.getLast? = some fn := by
    rw [hparts]; exact List.getLast?_concat _
  have hdrop : p.parts.dropLast = pp := by
    rw [hparts]; exact List.dropLast_concat
  have hlook : get_entry_for_path root p = .error ERRNO_NOENT := by
    have hr : resolvePath root p.parts = .error ERRNO_NOENT := by
      rw [hparts, resolvePath_append, hres]
      simp [resolvePath, hmg]
    rw [get_entry_for_path, hr]
  set nc : Inode := (if oflags &&& OFLAGS_DIRECTORY = OFLAGS_DIRECTORY then Inode.dir ctr []
    else Inode.file ctr [] false) with hnc
  have hcreate : create_entry_for_path root s
      (decide (oflags &&& OFLAGS_DIRECTORY = OFLAGS_DIRECTORY)) ctr =
      (ERRNO_SUCCESS, some nc, modifyAt root pp (fun m => mapSet m fn nc)) := by
    simp only [create_entry_for_path, hp, hgp, decide_eq_true_eq]
  have hopen : path_open root s oflags rights fdflags ctr =
      open_entry (modifyAt root pp (fun m => mapSet m fn nc)) p nc oflags rights fdflags := by
    simp only [path_open, hp, hlook, hcreat, hcreate, ne_eq, not_true_eq_false,
      if_false, eq_self_iff_true, if_true]
  have hr2 : resolvePath (modifyAt root pp (fun m => mapSet m fn nc)) p.parts = .ok nc := by
    rw [hparts]
    exact resolve_after_insert root pp fn i0 pm nc hres
  by_cases hdir : oflags &&& OFLAGS_DIRECTORY = OFLAGS_DIRECTORY
  · have hnceq : nc = Inode.dir ctr [] := by rw [hnc, if_pos hdir]
    have heo : open_entry (modifyAt root pp (fun m => mapSet m fn nc)) p nc oflags rights
        fdflags = (ERRNO_SUCCESS, some (.openDirectory (.dir ctr [])),
          modifyAt root pp (fun m => mapSet m fn nc)) := by
      rw [hnceq, open_entry, if_neg (by simp [Inode.stat])]
    rw [hopen, heo]
    exact ⟨rfl, rfl, by rw [← hnceq]; exact hr2⟩
  · have hnceq : nc = Inode.file ctr [] false := by rw [hnc, if_neg hdir]
    have heo : open_entry (modifyAt root pp (fun m => mapSet m fn nc)) p nc oflags rights
        fdflags = (ERRNO_SUCCESS, some (.openFile [] false 0),
          if oflags &&& OFLAGS_TRUNC = OFLAGS_TRUNC then
            set_entry_at (modifyAt root pp (fun m => mapSet m fn nc)) p.parts
              (.file ctr [] false)
          else modifyAt root pp (fun m => mapSet m fn nc)) := by
      rw [hnceq, open_entry, if_neg (by simp [hdir]), if_neg (by simp), if_neg (by simp)]
      simp only [ite_self, List.length_nil]
    rw [hopen, heo]
    refine ⟨rfl, rfl, ?_⟩
    by_cases htr : oflags &&& OFLAGS_TRUNC = OFLAGS_TRUNC
    · rw [if_pos htr]
      have hsea : set_entry_at (modifyAt root pp (fun m => mapSet m fn nc)) p.parts
          (.file ctr [] false) =
          modifyAt (modifyAt root pp (fun m => mapSet m fn nc)) pp
            (fun m => mapSet m fn nc) := by
        rw [set_entry_at, hlast, hdrop, ← hnceq]
      rw [hsea]
      have hresX : resolvePath (modifyAt root pp (fun m => mapSet m fn nc)) pp =
          .ok (.dir i0 (mapSet pm fn nc)) :=
        resolvePath_modifyAt pp root i0 pm _ hres
      rw [hparts]
      exact resolve_after_insert _ pp fn i0 (mapSet pm fn nc) nc hresX
    · rw [if_neg htr]
      exact hr2

theorem childDirents_length (l : List (Name × Inode)) : ∀ k, (childDirents k l).length = l.length := by
  induction l with
  | nil => intro k; rfl
  | cons hd tl ih =>
    intro k
    rcases hd with ⟨n, e⟩
    simp [childDirents, ih]

theorem childDirents_getElem? (l : List (Name × Inode)) : ∀ (k i : Nat),
    (childDirents k l)[i]? =
      l[i]?.map (fun q => (⟨k + i + 1, q.2.ino, q.1, q.2.stat.filetype⟩ : Dirent)) := by
  induction l with
  | nil => intro k i; simp [childDirents]
  | cons hd tl ih =>
    intro k i
    rcases hd with ⟨n, e⟩
    cases i with
    | zero => simp [childDirents]
    | succ i =>
      rw [childDirents, List.getElem?_cons_succ, List.getElem?_cons_succ, ih (k + 1) i]
      rcases tl[i]? with _ | q
      · rfl
      · simp only [Option.map_some', Option.some.injEq, Dirent.mk.injEq]
        refine ⟨by omega, trivial, trivial, trivial⟩

theorem direntsOf_length (a b : Nat) (l : List (Name × Inode)) :
    (direntsOf a b l).length = l.length + 2 := by
  simp only [direntsOf, List.length_cons, childDirents_length]

theorem direntsOf_getElem?_add_two (a b : Nat) (l : List (Name × Inode)) (c : Nat) :
    (direntsOf a b l)[c + 2]? =
      l[c]?.map (fun q => (⟨c + 3, q.2.ino, q.1, q.2.stat.filetype⟩ : Dirent)) := by
  show (direntsOf a b l)[(c + 1) + 1]? = _
  rw [direntsOf, List.getElem?_cons_succ, List.getElem?_cons_succ, childDirents_getElem? l 2 c]
  rcases l[c]? with _ | q
  · rfl
  · simp only [Option.map_some', Option.some.injEq, Dirent.mk.injEq]
    refine ⟨by omega, trivial, trivial, trivial⟩

theorem single_eq_getElem? (a b : Nat) (l : List (Name × Inode)) (c : Nat) :
    (fd_readdir_single a b l c).2 = (direntsOf a b l)[c]? := by
  match c with
  | 0 =>
    rw [fd_readdir_single, if_pos rfl]
    simp [direntsOf]
  | 1 =>
    rw [fd_readdir_single, if_neg (by omega), if_pos rfl]
    simp [direntsOf]
  | c + 2 =>
    rw [fd_readdir_single, direntsOf_getElem?_add_two]
    rw [if_neg (by omega), if_neg (by omega)]
    by_cases hle : l.length + 2 ≤ c + 2
    · rw [if_pos hle, List.getElem?_eq_none (by omega : l.length ≤ c)]
      rfl
    · rw [if_neg hle]
      have hc2 : c + 2 - 2 = c := rfl
      rcases hq : l[c]? with _ | q
      · rw [hc2, hq]; rfl
      · rw [hc2, hq]
        rcases q with ⟨n, e⟩
        rfl

theorem direntsOf_next (a b : Nat) (l : List (Name × Inode)) (c : Nat) (d : Dirent)
    (h : (direntsOf a b l)[c]? = some d) : d.d_next = c + 1 := by
  match c with
  | 0 =>
    simp only [direntsOf, List.getElem?_cons_zero, Option.some.injEq] at h
    rw [← h]
  | 1 =>
    simp only [direntsOf, List.getElem?_cons_succ, List.getElem?_cons_zero,
      Option.some.injEq] at h
    rw [← h]
  | c + 2 =>
    rw [direntsOf_getElem?_add_two] at h
    rcases hq : l[c]? with _ | q
    · rw [hq] at h; exact absurd h (by simp)
    · rw [hq] at h
      simp only [Option.map_some', Option.some.injEq] at h
      rw [← h]

theorem fd_readdir_loop_cookie_ge (a b : Nat) (l : List (Name × Inode)) (bl : Nat) :
    ∀ fuel cookie bufused, cookie ≤ (fd_readdir_loop a b l bl fuel cookie bufused).2.1 := by
  intro fuel
  induction fuel with
  | zero => intro c u; exact Nat.le_refl c
  | succ fuel ih =>
    intro c u
    rcases hs : (fd_readdir_single a b l c).2 with _ | d
    · rw [fd_readdir_loop, hs]
    · have hnext : d.d_next = c + 1 :=
        direntsOf_next a b l c d (by rw [← single_eq_getElem?]; exact hs)
      rw [fd_readdir_loop, hs]
      by_cases h1 : bl - u < d.head_length
      · simp [h1]
      · by_cases h2 : bl - (u + d.head_length) < d.name_length
        · simp [h1, h2]
        · simp only [if_neg h1, if_neg h2]
          have := ih d.d_next (u + d.head_length + d.name_length)
          omega

theorem fd_readdir_loop_take (a b : Nat) (l : List (Name × Inode)) (bl : Nat) :
    ∀ fuel cookie bufused, l.length + 2 - cookie < fuel →
      (fd_readdir_loop a b l bl fuel cookie bufused).1 =
        ((direntsOf a b l).drop cookie).take
          ((fd_readdir_loop a b l bl fuel cookie bufused).2.1 - cookie) := by
  intro fuel
  induction fuel with
  | zero => intro c u h; exact absurd h (by omega)
  | succ fuel ih =>
    intro c u hfuel
    rcases hs : (fd_readdir_single a b l c).2 with _ | d
    · rw [fd_readdir_loop, hs]
      simp
    · have hgc : (direntsOf a b l)[c]? = some d := by rw [← single_eq_getElem?, hs]
      have hnext : d.d_next = c + 1 := direntsOf_next a b l c d hgc
      obtain ⟨hclt, hgetc⟩ := List.getElem?_eq_some.mp hgc
      rw [fd_readdir_loop, hs]
      by_cases h1 : bl - u < d.head_length
      · simp [h1]
      · by_cases h2 : bl - (u + d.head_length) < d.name_length
        · simp [h1, h2]
        · simp only [if_neg h1, if_neg h2, hnext]
          have hclen : c < l.length + 2 := by rwa [direntsOf_length] at hclt
          have ihr := ih (c + 1) (u + d.head_length + d.name_length) (by omega)
          have hge := fd_readdir_loop_cookie_ge a b l bl fuel (c + 1)
            (u + d.head_length + d.name_length)
          set r := fd_readdir_loop a b l bl fuel (c + 1)
            (u + d.head_length + d.name_length) with hrdef
          show d :: r.1 = ((direntsOf a b l).drop c).take (r.2.1 - c)
          have hdropc : (direntsOf a b l).drop c = d :: (direntsOf a b l).drop (c + 1) := by
            rw [List.drop_eq_getElem_cons hclt, hgetc]
          rw [hdropc, show r.2.1 - c = (r.2.1 - (c + 1)) + 1 from by omega,
            List.take_succ_cons, ihr]

theorem fd_readdir_loop_progress (a b : Nat) (l : List (Name × Inode)) (bl : Nat)
    (fuel c : Nat) (d : Dirent)
    (hgc : (direntsOf a b l)[c]? = some d)
    (hfit : 24 + d.d_name.length ≤ bl) :
    c + 1 ≤ (fd_readdir_loop a b l bl (fuel + 1) c 0).2.1 := by
  have hs : (fd_readdir_single a b l c).2 = some d := by rw [single_eq_getElem?, hgc]
  have hnext : d.d_next = c + 1 := direntsOf_next a b l c d hgc
  rw [fd_readdir_loop, hs]
  have h1 : ¬bl - 0 < d.head_length := by
    simp only [Dirent.head_length]; omega
  have h2 : ¬bl - (0 + d.head_length) < d.name_length := by
    simp only [Dirent.head_length, Dirent.name_length]; omega
  simp only [if_neg h1, if_neg h2]
  have := fd_readdir_loop_cookie_ge a b l bl fuel d.d_next (0 + d.head_length + d.name_length)
  omega

theorem fd_readdir_drain_correct (a b : Nat) (l : List (Name × Inode)) (bl : Nat)
    (hfit : ∀ d ∈ direntsOf a b l, 24 + d.d_name.length ≤ bl) :
    ∀ fuel c, l.length + 2 - c < fuel →
      fd_readdir_drain a b l bl fuel c = (direntsOf a b l).drop c := by
  intro fuel
  induction fuel with
  | zero => intro c h; exact absurd h (by omega)
  | succ fuel ih =>
    intro c hfuel
    rcases hgc : (direntsOf a b l)[c]? with _ | d
    · have hclen : (direntsOf a b l).length ≤ c := by
        by_contra hlt
        push_neg at hlt
        rw [List.getElem?_eq_getElem hlt] at hgc
        exact absurd hgc (by simp)
      have hdrop : (direntsOf a b l).drop c = [] := List.drop_eq_nil_of_le hclen
      have htake := fd_readdir_loop_take a b l bl (l.length + 3) c 0 (by omega)
      rw [hdrop] at htake
      simp only [List.take_nil] at htake
      simp only [fd_readdir_drain]
      rw [htake, hdrop]
    · have hfitd := hfit d (List.getElem?_mem hgc)
      have hprog : c + 1 ≤ (fd_readdir_loop a b l bl (l.length + 3) c 0).2.1 :=
        fd_readdir_loop_progress a b l bl (l.length + 2) c d hgc hfitd
      have htake := fd_readdir_loop_take a b l bl (l.length + 3) c 0 (by omega)
      obtain ⟨hclt, hgetc⟩ := List.getElem?_eq_some.mp hgc
      have hclt2 : c < l.length + 2 := by rwa [direntsOf_length] at hclt
      set r := fd_readdir_loop a b l bl (l.length + 3) c 0 with hrdef
      have hdropc : (direntsOf a b l).drop c = d :: (direntsOf a b l).drop (c + 1) := by
        rw [List.drop_eq_getElem_cons hclt, hgetc]
      have htake' : r.1 = d :: ((direntsOf a b l).drop (c + 1)).take (r.2.1 - c - 1) := by
        rw [htake, hdropc]
        conv_lhs => rw [show r.2.1 - c = (r.2.1 - c - 1) + 1 from by omega]
        rw [List.take_succ_cons]
      have hih := ih r.2.1 (by omega)
      have hdd : (direntsOf a b l).drop r.2.1 =
          ((direntsOf a b l).drop (c + 1)).drop (r.2.1 - c - 1) := by
        rw [List.drop_drop]
        congr 1
        omega
      simp only [fd_readdir_drain, ← hrdef]
      rw [htake']
      show (d :: ((direntsOf a b l).drop (c + 1)).take (r.2.1 - c - 1)) ++
          fd_readdir_drain a b l bl fuel r.2.1 = (direntsOf a b l).drop c
      rw [hih, hdropc, List.cons_append, hdd, List.take_append_drop]

/-! Claim theorems. -/

/-- C7: writing `n` bytes at cursor position `p` on a writable open file
reports success with `n` as the written count; seeking back to `p` reports
success at offset `p`; reading `n` bytes then returns exactly the written
byte sequence with success. -/
theorem file_write_read_roundtrip (st : OpenFile) (d : List Nat) (h : st.readonly = false) :
    (st.fd_write d).1 = (ERRNO_SUCCESS, d.length) ∧
      ((st.fd_write d).2.fd_seek (Int.ofNat st.file_pos) WHENCE_SET).1 =
        (ERRNO_SUCCESS, Int.ofNat st.file_pos) ∧
      (((st.fd_write d).2.fd_seek (Int.ofNat st.file_pos) WHENCE_SET).2.fd_read d.length).1 =
        (ERRNO_SUCCESS, d) := by
  have hw : st.fd_write d =
      ((ERRNO_SUCCESS, d.length),
        ⟨(if st.file_pos + d.length > st.data.length then
              st.data ++ List.replicate (st.file_pos + d.length - st.data.length) 0
            else st.data).take st.file_pos ++ d ++
          (if st.file_pos + d.length > st.data.length then
              st.data ++ List.replicate (st.file_pos + d.length - st.data.length) 0
            else st.data).drop (st.file_pos + d.length),
          st.readonly, st.file_pos + d.length⟩) := by
    rw [OpenFile.fd_write, h]; rfl
  set buf := if st.file_pos + d.length > st.data.length then
      st.data ++ List.replicate (st.file_pos + d.length - st.data.length) 0
    else st.data with hbuf
  have hblen : st.file_pos + d.length ≤ buf.length := by
    rw [hbuf]; split
    · rw [List.length_append, List.length_replicate]; omega
    · omega
  have hseek : ((st.fd_write d).2.fd_seek (Int.ofNat st.file_pos) WHENCE_SET) =
      ((ERRNO_SUCCESS, Int.ofNat st.file_pos),
        ⟨buf.take st.file_pos ++ d ++ buf.drop (st.file_pos + d.length),
          st.readonly, st.file_pos⟩) := by
    have hpos : ¬Int.ofNat st.file_pos < 0 := not_lt.mpr (Int.ofNat_nonneg _)
    rw [hw, OpenFile.fd_seek, if_pos rfl, OpenFile.seekTo, if_neg hpos]
    simp
  refine ⟨by rw [hw], by rw [hseek], ?_⟩
  rw [hseek]
  have hkey := write_read_key buf st.file_pos d hblen
  simp only [OpenFile.fd_read, hkey]

/-- C7 witness. -/
theorem file_write_read_roundtrip_witness :
    (OpenFile.fd_write ⟨[9], false, 1⟩ [5, 6]).1 = (ERRNO_SUCCESS, 2) ∧
      ((OpenFile.fd_write ⟨[9], false, 1⟩ [5, 6]).2.fd_seek (Int.ofNat 1) WHENCE_SET).1 =
        (ERRNO_SUCCESS, Int.ofNat 1) ∧
      (((OpenFile.fd_write ⟨[9], false, 1⟩ [5, 6]).2.fd_seek (Int.ofNat 1)
          WHENCE_SET).2.fd_read 2).1 = (ERRNO_SUCCESS, [5, 6]) :=
  file_write_read_roundtrip ⟨[9], false, 1⟩ [5, 6] rfl

/-- C9: on a read-only backing file both `fd_write` and `fd_pwrite` return
the bad-descriptor code (which is not the permission-denied code) with a zero
written count and leave the handle (buffer and cursor) unchanged. -/
theorem readonly_write_badf (st : OpenFile) (d : List Nat) (offset : Nat)
    (h : st.readonly = true) :
    st.fd_write d = ((ERRNO_BADF, 0), st) ∧
      st.fd_pwrite d offset = ((ERRNO_BADF, 0), st) ∧
      ERRNO_BADF ≠ ERRNO_PERM := by
  refine ⟨?_, ?_, by decide⟩
  · rw [OpenFile.fd_write, h]; rfl
  · rw [OpenFile.fd_pwrite, h]; rfl

/-- C9 witness. -/
theorem readonly_write_badf_witness :
    OpenFile.fd_write ⟨[1, 2], true, 1⟩ [3] = ((ERRNO_BADF, 0), ⟨[1, 2], true, 1⟩) ∧
      OpenFile.fd_pwrite ⟨[1, 2], true, 1⟩ [3] 0 = ((ERRNO_BADF, 0), ⟨[1, 2], true, 1⟩) ∧
      ERRNO_BADF ≠ ERRNO_PERM :=
  readonly_write_badf ⟨[1, 2], true, 1⟩ [3] 0 rfl

/-- C5: a push on the asynchronously-fed input handle after close leaves the
queue, the byte count and the whole state unchanged and performs no wake
callback invocation; a push before close (with a wake callback registered)
appends the chunk, grows the byte count by its length, and invokes the
callback exactly once. -/
theorem stdin_push_spec (st : PollableStdin) (data : List Nat) :
    (st.closed = true → st.push data = (st, 0)) ∧
      (st.closed = false → st.wakeRegistered = true →
        st.push data =
          (⟨st.buffer ++ [data], st.bufferSize + data.length, st.closed, st.wakeRegistered⟩,
            1)) := by
  constructor
  · intro h; rw [PollableStdin.push, h]; rfl
  · intro h hw; rw [PollableStdin.push, h, hw]; rfl

/-- C5 witness. -/
theorem stdin_push_spec_witness :
    PollableStdin.push ⟨[[1]], 1, true, true⟩ [7, 8] = (⟨[[1]], 1, true, true⟩, 0) ∧
      PollableStdin.push ⟨[[1]], 1, false, true⟩ [7, 8] = (⟨[[1], [7, 8]], 3, false, true⟩, 1) :=
  ⟨(stdin_push_spec ⟨[[1]], 1, true, true⟩ [7, 8]).1 rfl,
    (stdin_push_spec ⟨[[1]], 1, false, true⟩ [7, 8]).2 rfl rfl⟩

/-- C8: the ino values issued by the process-wide counter over a run are
strictly increasing (hence none is ever reused and the ino-to-node mapping
stays one-to-one), each is at least 1, and none collides with the reserved
root-parent value. -/
theorem ino_counter_spec : ∀ n : Nat,
    List.Pairwise (· < ·) (issueRun next_ino_init n) ∧
      ∀ x ∈ issueRun next_ino_init n, 1 ≤ x ∧ x ≠ root_ino := by
  intro n
  refine ⟨(issueRun_lowerBound n next_ino_init).1, fun x hx => ?_⟩
  have h1 : 1 ≤ x := (issueRun_lowerBound n next_ino_init).2 x hx
  exact ⟨h1, by rw [root_ino]; omega⟩

/-- C10: `fd_read` on the asynchronously-fed input handle always returns the
success code; it returns the first `size` bytes of the queued chunks in push
order (so an empty queue reads zero bytes), leaves exactly the remaining
bytes queued (the unconsumed remainder of a split chunk staying at the
head), keeps the byte count consistent, and does not touch the closed flag
or the wake registration.  The byte-count hypothesis is the invariant the
handle maintains. -/
theorem stdin_fd_read_spec (st : PollableStdin) (size : Nat)
    (hinv : st.bufferSize = st.buffer.flatten.length) :
    (st.fd_read size).1 = (ERRNO_SUCCESS, st.buffer.flatten.take size) ∧
      (st.fd_read size).2.buffer.flatten = st.buffer.flatten.drop size ∧
      (st.fd_read size).2.bufferSize = (st.fd_read size).2.buffer.flatten.length ∧
      (st.fd_read size).2.closed = st.closed ∧
      (st.fd_read size).2.wakeRegistered = st.wakeRegistered := by
  rw [PollableStdin.fd_read]
  by_cases h0 : st.bufferSize = 0
  · have hfl : st.buffer.flatten = [] := by
      rw [hinv] at h0; exact List.length_eq_zero.mp h0
    rw [if_pos h0]
    simp [hfl, hinv, h0]
  · rw [if_neg h0]
    have hcol := (stdinReadLoop_flatten st.buffer size).1
    have hrest := (stdinReadLoop_flatten st.buffer size).2
    rcases hq : stdinReadLoop st.buffer size with ⟨col, q'⟩
    rw [hq] at hcol hrest
    simp only at hcol hrest
    refine ⟨by rw [hcol], by simpa using hrest, ?_, rfl, rfl⟩
    simp only
    rw [hrest, hcol, hinv, List.length_drop, List.length_take]
    omega

/-- C1 counterexample: renaming the empty directory `d` through the source
path `d/` (trailing slash) to `e`, where `e` is a non-empty directory: the
source entry is successfully unlinked and the destination link fails with
the not-empty code, yet `path_rename` does not return that failure code with
the source re-linked — it takes the fatal internal-consistency throw, because
re-linking at the trailing-slash source path fails with the not-found code. -/
theorem rename_trailing_slash_fatal_cex :
    (path_unlink renameCexRoot ['d', '/']).1 = ERRNO_SUCCESS ∧
      (path_unlink renameCexRoot ['d', '/']).2.1 = some (Inode.dir 1 []) ∧
      (path_link (path_unlink renameCexRoot ['d', '/']).2.2 ['e'] (Inode.dir 1 []) true).1 =
        ERRNO_NOTEMPTY ∧
      ERRNO_NOTEMPTY ≠ ERRNO_SUCCESS ∧
      path_rename renameCexRoot ['d', '/'] ['e'] = RenameResult.fatal :=
  ⟨rfl, rfl, rfl, by decide, rfl⟩

/-- C1 (amended): for every rename whose source path parses without the
trailing-slash flag, if the source entry is successfully unlinked and linking
the inode at the destination fails, then re-linking the inode at the source
path succeeds, the call returns the destination link's failure code together
with the re-linked tree, and in that tree the source path again resolves to
the very same inode.  (With a trailing-slash source path the re-link fails
and the implementation takes its fatal internal-consistency throw instead,
as the counterexample shows.) -/
theorem rename_rollback_after_link_failure (root : Inode) (old_path new_path : Name) (p : Path)
    (hp : path_from old_path = .ok p) (hnd : p.is_dir = false)
    (inode t1 : Inode)
    (hu : path_unlink root old_path = (ERRNO_SUCCESS, some inode, t1))
    (hl : (path_link t1 new_path inode true).1 ≠ ERRNO_SUCCESS) :
    (path_link t1 old_path inode true).1 = ERRNO_SUCCESS ∧
      path_rename root old_path new_path =
        .ok (path_link t1 new_path inode true).1 (path_link t1 old_path inode true).2 ∧
      get_entry_for_path (path_link t1 old_path inode true).2 ⟨p.parts, false⟩ = .ok inode := by
  rcases hgpe : get_parent_dir_and_entry_for_path root p true with e | ⟨pp, fn, pm, eo⟩
  · have hueq : path_unlink root old_path = (e, none, root) := by
      simp only [path_unlink, hp, hgpe]
    rw [hueq] at hu
    exact absurd hu (by simp)
  · rcases eo with _ | entry
    · have hueq : path_unlink root old_path = (ERRNO_NOENT, none, root) := by
        simp only [path_unlink, hp, hgpe]
      rw [hueq] at hu
      exact absurd hu (by simp)
    · have hueq : path_unlink root old_path =
          (ERRNO_SUCCESS, some entry, modifyAt root pp (fun m => mapDel m fn)) := by
        simp only [path_unlink, hp, hgpe]
      rw [hueq] at hu
      simp only [Prod.mk.injEq] at hu
      obtain ⟨-, hinode, ht1⟩ := hu
      obtain rfl : entry = inode := Option.some.inj hinode
      obtain ⟨hpp, hparts, ⟨i, hres⟩, hmg⟩ := get_parent_ok_inv _ _ _ _ _ _ _ hgpe
      have hlast : p.parts.getLast? = some fn := by
        rw [hparts]; exact List.getLast?_concat _
      have hdrop : p.parts.dropLast = pp := by
        rw [hparts]; exact List.dropLast_concat
      have hres1 : resolvePath t1 pp = .ok (.dir i (mapDel pm fn)) := by
        rw [← ht1]; exact resolvePath_modifyAt pp root i pm _ hres
      have hge1 : get_entry_for_path t1 ⟨p.parts.dropLast, p.is_dir⟩ =
          .ok (.dir i (mapDel pm fn)) := by
        rw [get_entry_for_path]
        simp only [hdrop, hres1, hnd, Bool.false_eq_true, false_and, if_false]
      have hgp1 : get_parent_dir_and_entry_for_path t1 p true =
          .ok (pp, fn, mapDel pm fn, none) := by
        rw [get_parent_dir_and_entry_for_path, hlast, hge1]
        simp only [mapGet_mapDel_self, if_true, hdrop]
      have hrelink : path_link t1 old_path entry true =
          (ERRNO_SUCCESS, modifyAt t1 pp (fun m => mapSet m fn entry)) := by
        rw [path_link, hp]
        simp only [hnd, Bool.false_eq_true, if_false, hgp1, linkSet]
        rw [if_neg (by simp)]
      have hfinal : get_entry_for_path (modifyAt t1 pp (fun m => mapSet m fn entry))
          ⟨p.parts, false⟩ = .ok entry := by
        have hr2 : resolvePath (modifyAt t1 pp (fun m => mapSet m fn entry)) p.parts =
            .ok entry := by
          rw [hparts]
          exact resolve_after_insert t1 pp fn i (mapDel pm fn) entry hres1
        rw [get_entry_for_path, hr2]
        simp
      rcases hlink : path_link t1 new_path entry true with ⟨lret, t2⟩
      rw [hlink] at hl
      have hl' : lret ≠ ERRNO_SUCCESS := hl
      have ht2 : t2 = t1 := path_link_fail_eq t1 new_path entry true lret t2 hlink hl'
      subst ht2
      refine ⟨by rw [hrelink], ?_, by rw [hrelink]; exact hfinal⟩
      simp only [path_rename, hueq, ht1, hlink, hrelink]
      rw [if_pos hl', if_neg (by simp [ERRNO_SUCCESS])]

/-- C1 witness for the amended theorem: renaming `d` (no trailing slash) onto
the non-empty directory `e` fails with the not-empty code and leaves `d`
mapping to its original inode. -/
theorem rename_rollback_after_link_failure_witness :
    (path_link (path_unlink renameCexRoot ['d']).2.2 ['d'] (Inode.dir 1 []) true).1 =
        ERRNO_SUCCESS ∧
      path_rename renameCexRoot ['d'] ['e'] =
        .ok (path_link (path_unlink renameCexRoot ['d']).2.2 ['e'] (Inode.dir 1 []) true).1
          (path_link (path_unlink renameCexRoot ['d']).2.2 ['d'] (Inode.dir 1 []) true).2 ∧
      get_entry_for_path
          (path_link (path_unlink renameCexRoot ['d']).2.2 ['d'] (Inode.dir 1 []) true).2
          ⟨[['d']], false⟩ = .ok (Inode.dir 1 []) :=
  rename_rollback_after_link_failure renameCexRoot ['d'] ['e'] ⟨[['d']], false⟩ rfl rfl
    (Inode.dir 1 []) (path_unlink renameCexRoot ['d']).2.2 rfl (by decide)

/-- C6: removing a directory through `path_remove_directory`, once the parent
resolves and the target entry exists: a directory with a non-empty mapping
fails with the not-empty code and the tree is unchanged; a non-directory
target fails with the not-a-directory code and the tree is unchanged; a
directory with an empty mapping is removed from its parent's mapping and the
call succeeds. -/
theorem path_remove_directory_spec (root : Inode) (s : Name) (p : Path)
    (pp : List Name) (fn : Name) (pm : List (Name × Inode)) (entry : Inode)
    (hp : path_from s = .ok p)
    (hg : get_parent_dir_and_entry_for_path root p false = .ok (pp, fn, pm, some entry)) :
    (∀ i m, entry = .dir i m → m ≠ [] →
      path_remove_directory root s = (ERRNO_NOTEMPTY, root)) ∧
      (∀ i d ro, entry = .file i d ro →
        path_remove_directory root s = (ERRNO_NOTDIR, root)) ∧
      (∀ i, entry = .dir i [] →
        path_remove_directory root s =
          (ERRNO_SUCCESS, modifyAt root pp (fun m => mapDel m fn))) := by
  obtain ⟨-, -, -, hmg⟩ := get_parent_ok_inv _ _ _ _ _ _ _ hg
  refine ⟨?_, ?_, ?_⟩
  · intro i m he hm
    simp only [path_remove_directory, hp, hg, he]
    rw [if_pos (fun h => hm (List.length_eq_zero.mp h))]
  · intro i d ro he
    simp only [path_remove_directory, hp, hg, he]
  · intro i he
    simp only [path_remove_directory, hp, hg, he, List.length_nil]
    rw [if_neg (by simp), if_neg (by rw [hmg]; simp)]

/-- C6 witness for the empty-directory success case. -/
theorem path_remove_directory_spec_witness :
    path_remove_directory (Inode.dir 0 [(['d'], Inode.dir 1 [])]) ['d'] =
      (ERRNO_SUCCESS, modifyAt (Inode.dir 0 [(['d'], Inode.dir 1 [])]) []
        (fun m => mapDel m ['d'])) :=
  (path_remove_directory_spec (Inode.dir 0 [(['d'], Inode.dir 1 [])]) ['d'] ⟨[['d']], false⟩
    [] ['d'] [(['d'], Inode.dir 1 [])] (Inode.dir 1 []) rfl rfl).2.2 1 rfl

/-- C2: for every open directory handle (directory inode id, parent inode
id, contents mapping) and caller buffer size that can hold each single entry,
a guest driving `fd_readdir` from cookie 0 — each call resuming from the
final cookie of the previous one, however many calls its buffer size forces —
collects exactly `.` (with the directory's own inode id, at cookie 0), then
`..` (with the parent's inode id, at cookie 1), then each child of the
mapping exactly once in mapping order at cookies offset by 2 (each entry
carrying next-cookie one past its own). -/
theorem readdir_enumerates_all (dirIno parentIno : Nat) (contents : List (Name × Inode))
    (buf_len fuel : Nat)
    (hfuel : contents.length + 2 < fuel)
    (hfit : ∀ d ∈ direntsOf dirIno parentIno contents, 24 + d.d_name.length ≤ buf_len) :
    fd_readdir_drain dirIno parentIno contents buf_len fuel 0 =
      direntsOf dirIno parentIno contents := by
  have h := fd_readdir_drain_correct dirIno parentIno contents buf_len hfit fuel 0
    (by omega)
  simpa using h

/-- C2 witness: a directory with two children drained through a 26-byte
buffer, which forces one entry per call. -/
theorem readdir_enumerates_all_witness :
    fd_readdir_drain 5 4 [(['a'], Inode.file 7 [] false), (['b', 'b'], Inode.dir 8 [])]
        26 5 0 =
      direntsOf 5 4 [(['a'], Inode.file 7 [] false), (['b', 'b'], Inode.dir 8 [])] :=
  readdir_enumerates_all 5 4 [(['a'], Inode.file 7 [] false), (['b', 'b'], Inode.dir 8 [])]
    26 5 (by decide) (by decide)

/-- C4 counterexample: opening the path `a/b` on an empty root with the
create flag set.  The path does not resolve (the lookup fails with the
not-found code) and the create flag is set, yet the call does not create an
entry and succeed — it fails with the not-found code and leaves the tree
unchanged, because the intermediate directory `a` is missing. -/
theorem path_open_missing_parent_cex :
    get_entry_for_path (Inode.dir 0 []) ⟨[['a'], ['b']], false⟩ = .error ERRNO_NOENT ∧
      path_from ['a', '/', 'b'] = .ok ⟨[['a'], ['b']], false⟩ ∧
      (1 : Nat) &&& OFLAGS_CREAT = OFLAGS_CREAT ∧
      path_open (Inode.dir 0 []) ['a', '/', 'b'] 1 0 0 10 =
        (ERRNO_NOENT, none, Inode.dir 0 []) ∧
      ERRNO_NOENT ≠ ERRNO_SUCCESS :=
  ⟨rfl, rfl, rfl, rfl, by decide⟩

/-- C4 (amended): for every `path_open` call on a directory handle: if the
lookup fails with the not-found code and the create flag is not set, the
call fails with the not-found code and changes nothing; if the path resolves
and the exclusive-creation flag is set, the call fails with the
already-exists code and changes nothing; if the final component's parent
directory resolves but the entry itself is missing and the create flag is
set, a new empty entry is created at the path (a directory when the
directory flag is also set, otherwise a regular file) and the call succeeds;
and in that last situation with create+exclusive set and no trailing slash,
a second open of the same path fails with the already-exists code. -/
theorem path_open_spec (root : Inode) (s : Name) (p : Path)
    (oflags rights fdflags ctr ctr2 : Nat)
    (hp : path_from s = .ok p) :
    (get_entry_for_path root p = .error ERRNO_NOENT →
      oflags &&& OFLAGS_CREAT ≠ OFLAGS_CREAT →
      path_open root s oflags rights fdflags ctr = (ERRNO_NOENT, none, root)) ∧
    (∀ e, get_entry_for_path root p = .ok e → oflags &&& OFLAGS_EXCL = OFLAGS_EXCL →
      path_open root s oflags rights fdflags ctr = (ERRNO_EXIST, none, root)) ∧
    (∀ pp fn pm, get_parent_dir_and_entry_for_path root p true = .ok (pp, fn, pm, none) →
      oflags &&& OFLAGS_CREAT = OFLAGS_CREAT →
      (path_open root s oflags rights fdflags ctr).1 = ERRNO_SUCCESS ∧
        ((path_open root s oflags rights fdflags ctr).2.1).isSome = true ∧
        get_entry_for_path (path_open root s oflags rights fdflags ctr).2.2
            ⟨p.parts, false⟩ =
          .ok (if oflags &&& OFLAGS_DIRECTORY = OFLAGS_DIRECTORY then Inode.dir ctr []
            else Inode.file ctr [] false)) ∧
    (∀ pp fn pm, get_parent_dir_and_entry_for_path root p true = .ok (pp, fn, pm, none) →
      oflags &&& OFLAGS_CREAT = OFLAGS_CREAT → oflags &&& OFLAGS_EXCL = OFLAGS_EXCL →
      p.is_dir = false →
      (path_open root s oflags rights fdflags ctr).1 = ERRNO_SUCCESS ∧
        (path_open (path_open root s oflags rights fdflags ctr).2.2 s oflags rights
            fdflags ctr2).1 = ERRNO_EXIST) := by
  refine ⟨?_, ?_, ?_, ?_⟩
  · intro hlook hnc
    simp only [path_open, hp, hlook, ne_eq, not_true_eq_false, if_false,
      eq_self_iff_true, if_true]
    rw [if_neg hnc]
  · intro e hlook hexcl
    simp only [path_open, hp, hlook, hexcl, eq_self_iff_true, if_true]
  · intro pp fn pm hgp hcreat
    obtain ⟨h1, h2, h3⟩ :=
      path_open_creates root s p oflags rights fdflags ctr pp fn pm hp hgp hcreat
    refine ⟨h1, h2, ?_⟩
    rw [get_entry_for_path]
    simp only [h3, Bool.false_eq_true, false_and, if_false]
  · intro pp fn pm hgp hcreat hexcl hisdir
    obtain ⟨h1, h2, h3⟩ :=
      path_open_creates root s p oflags rights fdflags ctr pp fn pm hp hgp hcreat
    refine ⟨h1, ?_⟩
    obtain ⟨t', ht'⟩ : ∃ t', (path_open root s oflags rights fdflags ctr).2.2 = t' :=
      ⟨_, rfl⟩
    rw [ht'] at h3
    have hlook2 : get_entry_for_path t' p =
        .ok (if oflags &&& OFLAGS_DIRECTORY = OFLAGS_DIRECTORY then Inode.dir ctr []
          else Inode.file ctr [] false) := by
      rw [get_entry_for_path]
      simp only [h3, hisdir, Bool.false_eq_true, false_and, if_false]
    rw [ht']
    simp only [path_open, hp, hlook2, hexcl, eq_self_iff_true, if_true]

/-- C4 witness, exercising the create and create+exclusive clauses: the first
open of the missing path `f` with create+exclusive succeeds and the second
fails with the already-exists code. -/
theorem path_open_spec_witness :
    (path_open (Inode.dir 0 []) ['f'] 5 0 0 10).1 = ERRNO_SUCCESS ∧
      (path_open (path_open (Inode.dir 0 []) ['f'] 5 0 0 10).2.2 ['f'] 5 0 0 11).1 =
        ERRNO_EXIST :=
  (path_open_spec (Inode.dir 0 []) ['f'] ⟨[['f']], false⟩ 5 0 0 10 11 rfl).2.2.2
    [] ['f'] [] rfl rfl rfl rfl

/-- C3: a `poll_oneoff` batch holding exactly one clock subscription with a
supported clock, the absolute-time flag set and a deadline not after the
current reading of that clock, and no fd subscriptions, returns success and
writes exactly one clock-expiry event carrying the subscription's user data
with the success error code, on that very first call. -/
theorem poll_oneoff_clock (monoNow realNow : Nat) (fds : Nat → Option (Nat → PollResult))
    (s : Subscription)
    (het : s.eventtype = EVENTTYPE_CLOCK)
    (hcid : s.clockid = CLOCKID_MONOTONIC ∨ s.clockid = CLOCKID_REALTIME)
    (habs : s.flags &&& SUBCLOCKFLAGS_SUBSCRIPTION_CLOCK_ABSTIME ≠ 0)
    (hdl : s.timeout ≤ if s.clockid = CLOCKID_REALTIME then realNow else monoNow) :
    poll_oneoff monoNow realNow fds [s] =
      (ERRNO_SUCCESS, [⟨s.userdata, ERRNO_SUCCESS, EVENTTYPE_CLOCK, 0, 0⟩]) := by
  have hfind : List.find? (fun x => x.eventtype == EVENTTYPE_CLOCK) [s] = some s :=
    List.find?_cons_of_pos _ (by simp [het])
  have hscan : pollScan monoNow realNow fds [s] [] none 0 = ([], some s.timeout, s.userdata) := by
    rcases hcid with hc | hc <;>
      simp [pollScan, het, hc, habs, CLOCKID_MONOTONIC, CLOCKID_REALTIME]
  rw [poll_oneoff, if_neg (by simp), hscan]
  rcases hcid with hc | hc <;>
      simp [hfind, het, hc, CLOCKID_MONOTONIC, CLOCKID_REALTIME] <;>
    simpa [hc, CLOCKID_MONOTONIC, CLOCKID_REALTIME] using hdl

/-- C3 witness. -/
theorem poll_oneoff_clock_witness :
    poll_oneoff 100 200 (fun _ => none)
        [⟨77, EVENTTYPE_CLOCK, CLOCKID_MONOTONIC, 50, 1, 3⟩] =
      (ERRNO_SUCCESS, [⟨77, ERRNO_SUCCESS, EVENTTYPE_CLOCK, 0, 0⟩]) :=
  poll_oneoff_clock 100 200 (fun _ => none) ⟨77, EVENTTYPE_CLOCK, CLOCKID_MONOTONIC, 50, 1, 3⟩
    rfl (Or.inl rfl) (by decide) (by decide)

/-- C10 witness. -/
theorem stdin_fd_read_spec_witness :
    ((0 : Nat) + ([1, 2, 3] ++ ([4, 5] ++ [])).length =
        ([[1, 2, 3], [4, 5]] : List (List Nat)).flatten.length + 0) ∧
      (PollableStdin.fd_read ⟨[[1, 2, 3], [4, 5]], 5, false, true⟩ 4).1 =
        (ERRNO_SUCCESS, ([[1, 2, 3], [4, 5]] : List (List Nat)).flatten.take 4) := by
  refine ⟨by decide, ?_⟩
  exact (stdin_fd_read_spec ⟨[[1, 2, 3], [4, 5]], 5, false, true⟩ 4 (by decide)).1

end QjsWasi
